import Mathlib

/-!
Shallow embedding of `src/index.js` of raml2html.

The module orchestrates: parse a RAML source with the external `raml2obj`
library, stamp the configuration with the package version, attach the
configuration to the parsed object, then optionally run
`config.processRamlObj` and `config.postProcessHtml`.

Promises that settle are modelled as `Except e a`: a resolved promise is
`Except.ok`, a rejected one is `Except.error`.  JavaScript values that the
claims inspect are modelled by `JsValue`; function-valued configuration
fields are kept outside `JsValue` (in the `Config` structure) because the
claims only compare the data fields of a configuration.
-/

set_option autoImplicit false

/-- Model of the JavaScript values this module manipulates: `undefined`,
`null`, booleans, (integer) numbers, strings, arrays and plain objects.
Objects are insertion-ordered association lists. -/
inductive JsValue : Type where
  | undefined : JsValue
  | null : JsValue
  | bool : Bool → JsValue
  | num : Int → JsValue
  | str : String → JsValue
  | arr : List JsValue → JsValue
  | obj : List (String × JsValue) → JsValue

/-- JavaScript truthiness: `undefined`, `null`, `false`, `0` and `""` are
falsy, everything else (including all objects and arrays) is truthy. -/
def truthy : JsValue → Bool
  | .undefined => false
  | .null => false
  | .bool b => b
  | .num n => n != 0
  | .str s => s != ""
  | .arr _ => true
  | .obj _ => true

/-- Lookup of a property in an insertion-ordered field list. -/
def getField : List (String × JsValue) → String → Option JsValue
  | [], _ => none
  | (k, v) :: rest, name => if k = name then some v else getField rest name

/-- JavaScript property assignment `fields[name] = v`: an existing key keeps
its position and gets the new value, a fresh key is appended at the end. -/
def setField : List (String × JsValue) → String → JsValue → List (String × JsValue)
  | [], name, v => [(name, v)]
  | (k, w) :: rest, name, v =>
    if k = name then (name, v) :: rest else (k, w) :: setField rest name v

/-- JavaScript property read `v[name]`: a present key yields its value, a
missing key (or a non-object) yields `undefined`. -/
def getProp (v : JsValue) (name : String) : JsValue :=
  match v with
  | .obj fields => (getField fields name).getD .undefined
  | _ => .undefined

/-- JavaScript property write `v[name] = w` on an object value. -/
def setProp (v : JsValue) (name : String) (w : JsValue) : JsValue :=
  match v with
  | .obj fields => .obj (setField fields name w)
  | _ => v

/-- The configuration object passed to `render`.  Its data fields live in
`fields`; the two optional promise-returning callables are kept as `Option`
functions, mirroring the truthiness test `if (config.processRamlObj)` on a
field that is either a function or absent. -/
structure Config (e : Type) : Type where
  fields : List (String × JsValue)
  processRamlObj : Option (JsValue → Except e JsValue) := none
  postProcessHtml : Option (JsValue → Except e JsValue) := none

/-- Line 21 of `src/index.js`: `config.raml2HtmlVersion = pjson.version`.
The package version is a parameter since `package.json` is external data. -/
def stampConfig {e : Type} (config : Config e) (version : String) : Config e :=
  { config with fields := setField config.fields "raml2HtmlVersion" (.str version) }

/-- Lines 19-37 of `src/index.js`, the `render` function.  The external
parser `raml2obj.parse` is a parameter (`raml2objParse`), as is the package
version read from `package.json`.  The promise chain
`raml2obj.parse(source).then(...)` is the `Except` chain below: a parser
rejection short-circuits, then the (stamped) config is attached as
`ramlObj.config`, then `processRamlObj` and `postProcessHtml` run when
present, each rejection propagating unchanged. -/
def render {s e : Type} (raml2objParse : s → Except e JsValue) (source : s)
    (config : Config e) (version : String) : Except e JsValue :=
  let config := stampConfig config version
  match raml2objParse source with
  | .error err => .error err
  | .ok ramlObj =>
    let ramlObj := setProp ramlObj "config" (.obj config.fields)
    match config.processRamlObj with
    | some f =>
      match f ramlObj with
      | .error err => .error err
      | .ok html =>
        match config.postProcessHtml with
        | some g => g html
        | none => .ok html
    | none => .ok ramlObj

/-- Lines 72-78 of `src/index.js`: the `securitySchemeWithName` helper that
the default `processRamlObj` injects onto the parsed object.  It walks
`ramlObj.securitySchemes` and returns `securitySchemes[index][name]` for the
first index where that property read is truthy; falling off the loop returns
`undefined` (a JavaScript function without `return`). -/
def securitySchemeWithName : List JsValue → String → JsValue
  | [], _ => .undefined
  | scheme :: rest, name =>
    if truthy (getProp scheme name) then getProp scheme name
    else securitySchemeWithName rest name

/-- Argument shape of the injected `renderSecuredBy` helper: either an
object mapping scheme names to `{scopes: [...]}` records (the scopes being
the strings rendered into list items) or a bare (non-object) value rendered
through string concatenation, of which the claims use the string form. -/
inductive SecuredByArg : Type where
  | objVal : List (String × List String) → SecuredByArg
  | strVal : String → SecuredByArg

/-- Lines 81-100 of `src/index.js`: the injected `renderSecuredBy` helper.
For the object form it appends, per own key, `<b>` + key + `</b>` and, when
`securedBy[key].scopes.length` is truthy (non-zero), ` with scopes:<ul>`
followed by one `<li>` per scope and `</ul>`.  For the non-object form it
returns `'<b>' + securedBy + '</b>'`. -/
def renderSecuredBy : SecuredByArg → String
  | .objVal securedBy =>
    securedBy.foldl (fun out kv =>
      let out := out ++ "<b>" ++ kv.1 ++ "</b>"
      if kv.2.length != 0 then
        (kv.2.foldl (fun o scope => o ++ "<li>" ++ scope ++ "</li>")
          (out ++ " with scopes:<ul>")) ++ "</ul>"
      else out) ""
  | .strVal s => "<b>" ++ s ++ "</b>"

/-- The literal pattern of the regular expression `/&quot;/g` on line 107. -/
def quotPat : List Char := ['&', 'q', 'u', 'o', 't', ';']

/-- Line 107 of `src/index.js`: `html.replace(/&quot;/g, '"')`, the global,
left-to-right, non-overlapping replacement of every occurrence of the
literal `&quot;` by a double quote, on the character list of the string. -/
def replQuot : List Char → List Char
  | '&' :: 'q' :: 'u' :: 'o' :: 't' :: ';' :: rest => '"' :: replQuot rest
  | c :: rest => c :: replQuot rest
  | [] => []

/-- Decides whether `&quot;` occurs as a substring of a character list. -/
def containsQuot : List Char → Bool
  | [] => false
  | c :: rest => if (c :: rest).take 6 = quotPat then true else containsQuot rest

/-- Lines 106-107 of `src/index.js`: the string step of the default
`processRamlObj` that takes the HTML emitted by the template renderer and
fixes the double quotes. -/
def processRamlObjFixQuotes (html : String) : String :=
  String.mk (replQuot html.data)

/-- Result of the template bookkeeping at the top of `getDefaultConfig`:
which main template is used and which template search path is handed to
`nunjucks.configure` (`none` meaning the process working directory). -/
structure TemplateChoice : Type where
  mainTemplate : String
  templatesPath : Option String
deriving DecidableEq

/-- Lines 44-51 of `src/index.js`: the argument handling of
`getDefaultConfig`.  A missing (or empty, hence falsy) `mainTemplate`
selects the bundled `./lib/template.nunjucks` and forces `templatesPath` to
`__dirname`, the package's own installation directory; otherwise both
arguments are used as given. -/
def getDefaultConfigTemplateChoice (mainTemplate : Option String)
    (templatesPath : Option String) (dirname : String) : TemplateChoice :=
  if truthy (.str (mainTemplate.getD "")) then
    { mainTemplate := mainTemplate.getD "", templatesPath := templatesPath }
  else
    { mainTemplate := "./lib/template.nunjucks", templatesPath := some dirname }

/-- Model of JavaScript error values: a base error carrying a message, or
an error freshly constructed by `new Error(e)` around an existing value. -/
inductive ErrVal : Type where
  | msg : String → ErrVal
  | newError : ErrVal → ErrVal
deriving DecidableEq

/-- Lines 115-131 of `src/index.js`: the default `postProcessHtml`.  The
external minifier (`minimize.parse` with its node-style callback) is a
parameter; a callback error `e` rejects the deferred promise with
`new Error(e)`, a success resolves it with the minified result. -/
def defaultPostProcessHtml (minimizeParse : String → Except ErrVal String)
    (html : String) : Except ErrVal String :=
  match minimizeParse html with
  | .error e => .error (.newError e)
  | .ok result => .ok result

/-- Concatenation of a list of string fragments, used to state what the
`renderSecuredBy` accumulation loops produce. -/
def joinFrags : List String → String
  | [] => ""
  | s :: rest => s ++ joinFrags rest

/-! ## Helper lemmas shared by the claim theorems -/

theorem getField_setField_self (fields : List (String × JsValue)) (name : String)
    (v : JsValue) : getField (setField fields name v) name = some v := by
  induction fields with
  | nil => simp [setField, getField]
  | cons kv rest ih =>
    by_cases h : kv.1 = name
    · simp [setField, h, getField]
    · simp [setField, h, getField, ih]

theorem getField_setField_ne (fields : List (String × JsValue)) (name k : String)
    (v : JsValue) (hk : k ≠ name) :
    getField (setField fields name v) k = getField fields k := by
  induction fields with
  | nil => simp [setField, getField, Ne.symm hk]
  | cons kv rest ih =>
    by_cases h : kv.1 = name
    · simp [setField, h, getField, Ne.symm hk]
    · simp [setField, h, getField, ih]

theorem newError_ne (e : ErrVal) : ErrVal.newError e ≠ e := by
  induction e with
  | msg s => simp
  | newError e ih =>
    intro h
    injection h with h'
    exact ih h'

/-! ## Claim theorems -/

/-- C1: when the configuration holds a `processRamlObj` function `f` whose
promise resolves to `x` on the config-annotated parsed object, `render`
resolves to `x` if no `postProcessHtml` is configured and to the resolution
of `postProcessHtml x` if one is; `f` is invoked with the parsed object
after the (version-stamped) configuration has been attached to it, which is
why its behaviour at exactly that object determines the result. -/
theorem render_processRamlObj_pipeline {s e : Type}
    (raml2objParse : s → Except e JsValue) (source : s)
    (fields : List (String × JsValue)) (f g : JsValue → Except e JsValue)
    (ramlObj x : JsValue) (version : String)
    (hparse : raml2objParse source = .ok ramlObj)
    (hf : f (setProp ramlObj "config"
      (.obj (setField fields "raml2HtmlVersion" (.str version)))) = .ok x) :
    render raml2objParse source ⟨fields, some f, none⟩ version = .ok x ∧
    render raml2objParse source ⟨fields, some f, some g⟩ version = g x := by
  constructor <;> simp [render, stampConfig, hparse, hf]

theorem render_processRamlObj_pipeline_witness :
    render (fun _ : Unit => (.ok (.obj []) : Except ErrVal JsValue)) ()
      ⟨[], some (fun _ => .ok (.str "<x>")), none⟩ "1.0" = .ok (.str "<x>") ∧
    render (fun _ : Unit => (.ok (.obj []) : Except ErrVal JsValue)) ()
      ⟨[], some (fun _ => .ok (.str "<x>")), some (fun _ => .ok (.str "post"))⟩ "1.0"
      = (fun _ => .ok (.str "post")) (JsValue.str "<x>") :=
  ⟨(render_processRamlObj_pipeline (fun _ : Unit => .ok (.obj [])) () []
      (fun _ => .ok (.str "<x>")) (fun _ => (.ok (.str "post") : Except ErrVal JsValue))
      (.obj []) (.str "<x>") "1.0" rfl rfl).1,
   (render_processRamlObj_pipeline (fun _ : Unit => .ok (.obj [])) () []
      (fun _ => .ok (.str "<x>")) (fun _ => (.ok (.str "post") : Except ErrVal JsValue))
      (.obj []) (.str "<x>") "1.0" rfl rfl).2⟩

/-- C2: if the parser's promise rejects with error `err`, the promise
returned by `render` rejects with exactly `err`, for every configuration:
no step of the chain catches, transforms or retries the failure. -/
theorem render_propagates_parse_rejection {s e : Type}
    (raml2objParse : s → Except e JsValue) (source : s) (config : Config e)
    (version : String) (err : e)
    (hparse : raml2objParse source = .error err) :
    render raml2objParse source config version = .error err := by
  simp [render, hparse]

theorem render_propagates_parse_rejection_witness :
    render (fun _ : Unit => .error (ErrVal.msg "E")) ()
      ⟨[], some (fun _ => .ok (.str "h")), some (fun _ => .ok (.str "p"))⟩ "1.0"
      = .error (ErrVal.msg "E") :=
  render_propagates_parse_rejection (fun _ : Unit => .error (ErrVal.msg "E")) ()
    ⟨[], some (fun _ => .ok (.str "h")), some (fun _ => .ok (.str "p"))⟩ "1.0"
    (ErrVal.msg "E") rfl

/-- C3: with an empty configuration (no `processRamlObj`), `render` resolves
to the bare parsed object with the configuration attached, and that attached
`config` field is exactly the object `{raml2HtmlVersion: version}`; no
rendering or post-processing step runs. -/
theorem render_empty_config {s e : Type} (raml2objParse : s → Except e JsValue)
    (source : s) (objFields : List (String × JsValue)) (version : String)
    (hparse : raml2objParse source = .ok (.obj objFields)) :
    render raml2objParse source ⟨[], none, none⟩ version
      = .ok (setProp (.obj objFields) "config"
          (.obj [("raml2HtmlVersion", .str version)])) ∧
    getProp (setProp (.obj objFields) "config"
        (.obj [("raml2HtmlVersion", .str version)])) "config"
      = .obj [("raml2HtmlVersion", .str version)] := by
  constructor
  · simp [render, stampConfig, setField, hparse]
  · simp [getProp, setProp, getField_setField_self]

theorem render_empty_config_witness :
    render (fun _ : Unit => (.ok (.obj [("title", .str "t")]) : Except ErrVal JsValue)) ()
      ⟨[], none, none⟩ "1.0"
      = .ok (setProp (.obj [("title", .str "t")]) "config"
          (.obj [("raml2HtmlVersion", .str "1.0")])) ∧
    getProp (setProp (.obj [("title", .str "t")]) "config"
        (.obj [("raml2HtmlVersion", .str "1.0")])) "config"
      = .obj [("raml2HtmlVersion", .str "1.0")] :=
  render_empty_config (fun _ : Unit => (.ok (.obj [("title", .str "t")]) : Except ErrVal JsValue))
    () [("title", .str "t")] "1.0" rfl

/-- C4: stamping mutates the configuration exactly at the
`raml2HtmlVersion` field (set to the package version) and leaves every
other field and both callables unchanged, and `render` attaches that same
stamped configuration as the `config` field of the parsed object. -/
theorem render_stamps_config_once {e : Type} (config : Config e)
    (version k : String) (hk : k ≠ "raml2HtmlVersion") :
    getField (stampConfig config version).fields "raml2HtmlVersion"
      = some (.str version) ∧
    getField (stampConfig config version).fields k = getField config.fields k ∧
    (stampConfig config version).processRamlObj = config.processRamlObj ∧
    (stampConfig config version).postProcessHtml = config.postProcessHtml ∧
    ∀ {s : Type} (raml2objParse : s → Except e JsValue) (source : s)
      (objFields : List (String × JsValue)),
      raml2objParse source = .ok (.obj objFields) →
      config.processRamlObj = none →
      render raml2objParse source config version
        = .ok (.obj (setField objFields "config"
            (.obj (stampConfig config version).fields))) ∧
      getProp (.obj (setField objFields "config"
            (.obj (stampConfig config version).fields))) "config"
        = .obj (stampConfig config version).fields := by
  refine ⟨getField_setField_self _ _ _, getField_setField_ne _ _ _ _ hk, rfl, rfl, ?_⟩
  intro s raml2objParse source objFields hparse hnone
  constructor
  · simp [render, stampConfig, hparse, hnone, setProp]
  · simp [getProp, getField_setField_self]

theorem render_stamps_config_once_witness :
    getField (stampConfig (⟨[("other", .num 7)], none, none⟩ : Config ErrVal) "1.0").fields
      "raml2HtmlVersion" = some (.str "1.0") ∧
    getField (stampConfig (⟨[("other", .num 7)], none, none⟩ : Config ErrVal) "1.0").fields
      "other" = getField [("other", .num 7)] "other" ∧
    render (fun _ : Unit => (.ok (.obj []) : Except ErrVal JsValue)) ()
      ⟨[("other", .num 7)], none, none⟩ "1.0"
      = .ok (.obj (setField [] "config"
          (.obj (stampConfig (⟨[("other", .num 7)], none, none⟩ : Config ErrVal) "1.0").fields))) := by
  refine ⟨?_, ?_, ?_⟩
  · exact (render_stamps_config_once (⟨[("other", .num 7)], none, none⟩ : Config ErrVal)
      "1.0" "other" (by decide)).1
  · exact (render_stamps_config_once (⟨[("other", .num 7)], none, none⟩ : Config ErrVal)
      "1.0" "other" (by decide)).2.1
  · exact ((render_stamps_config_once (⟨[("other", .num 7)], none, none⟩ : Config ErrVal)
      "1.0" "other" (by decide)).2.2.2.2
      (fun _ : Unit => (.ok (.obj []) : Except ErrVal JsValue)) () [] rfl rfl).1

/-- C8: when no main-template identifier is supplied, `getDefaultConfig`
selects the bundled `./lib/template.nunjucks` and forces the template search
path to the package's own installation directory, overriding whatever
`templatesPath` the caller supplied; when a (non-empty) identifier is
supplied, the caller's `templatesPath` is used as given. -/
theorem getDefaultConfig_template_choice :
    (∀ (templatesPath : Option String) (dirname : String),
      getDefaultConfigTemplateChoice none templatesPath dirname
        = ⟨"./lib/template.nunjucks", some dirname⟩) ∧
    ∀ (m : String) (templatesPath : Option String) (dirname : String), m ≠ "" →
      getDefaultConfigTemplateChoice (some m) templatesPath dirname
        = ⟨m, templatesPath⟩ := by
  constructor
  · intro templatesPath dirname
    simp [getDefaultConfigTemplateChoice, truthy]
  · intro m templatesPath dirname hm
    simp [getDefaultConfigTemplateChoice, truthy, hm]

theorem getDefaultConfig_template_choice_witness :
    getDefaultConfigTemplateChoice none (some "/caller/templates") "/pkg/raml2html"
      = ⟨"./lib/template.nunjucks", some "/pkg/raml2html"⟩ ∧
    getDefaultConfigTemplateChoice (some "my.nunjucks") (some "/caller/templates")
      "/pkg/raml2html" = ⟨"my.nunjucks", some "/caller/templates"⟩ :=
  ⟨getDefaultConfig_template_choice.1 (some "/caller/templates") "/pkg/raml2html",
   getDefaultConfig_template_choice.2 "my.nunjucks" (some "/caller/templates")
     "/pkg/raml2html" (by decide)⟩

/-- C9: the default `postProcessHtml` hands the HTML string to the minifier;
when the minifier's callback reports an error `e` the promise rejects with a
freshly constructed wrapping `Error` (never `e` itself), and when the
callback reports success it resolves with the minified result string. -/
theorem defaultPostProcessHtml_spec (minimizeParse : String → Except ErrVal String)
    (html : String) :
    (∀ e, minimizeParse html = .error e →
      defaultPostProcessHtml minimizeParse html = .error (.newError e) ∧
      ErrVal.newError e ≠ e) ∧
    ∀ r, minimizeParse html = .ok r →
      defaultPostProcessHtml minimizeParse html = .ok r := by
  constructor
  · intro e he
    exact ⟨by simp [defaultPostProcessHtml, he], newError_ne e⟩
  · intro r hr
    simp [defaultPostProcessHtml, hr]

theorem scopes_foldl_eq (scopes : List String) (init : String) :
    scopes.foldl (fun o scope => o ++ "<li>" ++ scope ++ "</li>") init
      = init ++ joinFrags (scopes.map fun scope => "<li>" ++ scope ++ "</li>") := by
  induction scopes generalizing init with
  | nil => simp [joinFrags]
  | cons s rest ih =>
    simp only [List.foldl_cons]
    rw [ih]
    simp [joinFrags, String.append_assoc]

theorem securedBy_foldl_eq (securedBy : List (String × List String)) (init : String) :
    securedBy.foldl (fun out kv =>
      let out := out ++ "<b>" ++ kv.1 ++ "</b>"
      if kv.2.length != 0 then
        (kv.2.foldl (fun o scope => o ++ "<li>" ++ scope ++ "</li>")
          (out ++ " with scopes:<ul>")) ++ "</ul>"
      else out) init
      = init ++ joinFrags (securedBy.map fun kv =>
          "<b>" ++ kv.1 ++ "</b>" ++
          (if kv.2.length != 0 then
            " with scopes:<ul>" ++
              joinFrags (kv.2.map fun scope => "<li>" ++ scope ++ "</li>") ++ "</ul>"
          else "")) := by
  induction securedBy generalizing init with
  | nil => simp [joinFrags]
  | cons kv rest ih =>
    simp only [List.foldl_cons]
    by_cases h : (kv.2.length != 0) = true
    · rw [if_pos h, scopes_foldl_eq, ih, List.map_cons]
      simp only [joinFrags]
      rw [if_pos h]
      simp only [String.append_assoc]
    · rw [if_neg h, ih, List.map_cons]
      simp only [joinFrags]
      rw [if_neg h]
      simp only [String.append_assoc, String.append_empty]

/-- C5: `renderSecuredBy` on an object mapping scheme names to scope lists
emits, per scheme, the name wrapped in `<b>` tags followed, when the scope
list is non-empty, by ` with scopes:` and an unordered list of the scopes;
in particular the `oauth2` and `basic` examples produce exactly the claimed
fragments, and a bare string is rendered in bold directly. -/
theorem renderSecuredBy_spec :
    (∀ securedBy, renderSecuredBy (.objVal securedBy)
      = joinFrags (securedBy.map fun kv =>
          "<b>" ++ kv.1 ++ "</b>" ++
          (if kv.2.length != 0 then
            " with scopes:<ul>" ++
              joinFrags (kv.2.map fun scope => "<li>" ++ scope ++ "</li>") ++ "</ul>"
          else ""))) ∧
    renderSecuredBy (.objVal [("oauth2", ["read", "write"])])
      = "<b>oauth2</b> with scopes:<ul><li>read</li><li>write</li></ul>" ∧
    renderSecuredBy (.objVal [("basic", [])]) = "<b>basic</b>" ∧
    ∀ s, renderSecuredBy (.strVal s) = "<b>" ++ s ++ "</b>" := by
  refine ⟨?_, ?_, ?_, fun s => rfl⟩
  · intro securedBy
    rw [renderSecuredBy, securedBy_foldl_eq, String.empty_append]
  · rfl
  · rfl

/-- C6 as stated is refuted: an entry keyed by the requested name whose
value at that name is falsy is skipped, so on `[{oauth2: null}]` the lookup
of `"oauth2"` returns `undefined` even though an entry keyed `"oauth2"` is
present, and what a successful lookup returns is the value stored under the
name, not the containing entry. -/
theorem securitySchemeWithName_keyed_entry_counterexample :
    getField [("oauth2", JsValue.null)] "oauth2" = some JsValue.null ∧
    securitySchemeWithName [.obj [("oauth2", JsValue.null)]] "oauth2"
      = JsValue.undefined ∧
    JsValue.undefined ≠ JsValue.null ∧
    JsValue.undefined ≠ JsValue.obj [("oauth2", JsValue.null)] :=
  ⟨rfl, rfl, fun h => JsValue.noConfusion h, fun h => JsValue.noConfusion h⟩

/-- C6 amended: `securitySchemeWithName name` returns the value stored under
`name` in the first entry of `securitySchemes` whose value at `name` is
truthy, and returns `undefined` when every entry's value at `name` is falsy
(in particular when no entry is keyed by `name`). -/
theorem securitySchemeWithName_first_truthy (name : String) :
    (∀ (pre : List JsValue) (scheme : JsValue) (rest : List JsValue),
      (∀ p ∈ pre, truthy (getProp p name) = false) →
      truthy (getProp scheme name) = true →
      securitySchemeWithName (pre ++ scheme :: rest) name = getProp scheme name) ∧
    ∀ schemes : List JsValue,
      (∀ p ∈ schemes, truthy (getProp p name) = false) →
      securitySchemeWithName schemes name = .undefined := by
  constructor
  · intro pre scheme rest hpre ht
    induction pre with
    | nil => simp [securitySchemeWithName, ht]
    | cons p pre' ih =>
      have hp : truthy (getProp p name) = false := hpre p (by simp)
      simp only [List.cons_append, securitySchemeWithName, hp, Bool.false_eq_true,
        if_false]
      exact ih fun q hq => hpre q (by simp [hq])
  · intro schemes hall
    induction schemes with
    | nil => rfl
    | cons p rest ih =>
      have hp : truthy (getProp p name) = false := hall p (by simp)
      simp only [securitySchemeWithName, hp, Bool.false_eq_true, if_false]
      exact ih fun q hq => hall q (by simp [hq])

theorem securitySchemeWithName_first_truthy_witness :
    securitySchemeWithName
      [.obj [("oauth2", JsValue.num 0)],
       .obj [("oauth2", JsValue.obj [("type", JsValue.str "OAuth 2.0")])]] "oauth2"
      = getProp (.obj [("oauth2", JsValue.obj [("type", JsValue.str "OAuth 2.0")])])
          "oauth2" ∧
    securitySchemeWithName [.obj [("basic", JsValue.bool true)]] "oauth2"
      = JsValue.undefined :=
  ⟨(securitySchemeWithName_first_truthy "oauth2").1
      [.obj [("oauth2", JsValue.num 0)]]
      (.obj [("oauth2", JsValue.obj [("type", JsValue.str "OAuth 2.0")])]) []
      (by intro p hp; simp at hp; subst hp; rfl) rfl,
   (securitySchemeWithName_first_truthy "oauth2").2
      [.obj [("basic", JsValue.bool true)]]
      (by intro p hp; simp at hp; subst hp; rfl)⟩

theorem take_six_quotPat {c : Char} {x : List Char}
    (h : (c :: x).take 6 = quotPat) :
    ∃ t, c = '&' ∧ x = ['q', 'u', 'o', 't', ';'] ++ t := by
  have hx : quotPat ++ (c :: x).drop 6 = c :: x := by
    rw [← h]; exact List.take_append_drop 6 (c :: x)
  simp only [quotPat, List.cons_append, List.nil_append, List.cons.injEq] at hx
  exact ⟨(c :: x).drop 6, hx.1.symm, hx.2.symm⟩

theorem replQuot_cons (c : Char) (rest : List Char) :
    replQuot (c :: rest)
      = if (c :: rest).take 6 = quotPat then '"' :: replQuot (rest.drop 5)
        else c :: replQuot rest := by
  by_cases hq : (c :: rest).take 6 = quotPat
  · rw [if_pos hq]
    obtain ⟨t, hc, hr⟩ := take_six_quotPat hq
    subst hc
    subst hr
    rfl
  · rw [if_neg hq]
    exact replQuot.eq_2 c rest fun rest1 hc hr => hq (by rw [hc, hr]; rfl)

theorem replQuot_prefix_transfer (p : List Char)
    (hp : ∀ ch ∈ p, ch ≠ '&' ∧ ch ≠ '"') :
    ∀ l t : List Char, replQuot l = p ++ t → ∃ u, l = p ++ u := by
  induction p with
  | nil => exact fun l _ _ => ⟨l, rfl⟩
  | cons a p' ih =>
    intro l t h
    match l with
    | [] => simp [replQuot] at h
    | c :: rest =>
      rw [replQuot_cons] at h
      by_cases hq : (c :: rest).take 6 = quotPat
      · rw [if_pos hq] at h
        simp only [List.cons_append, List.cons.injEq] at h
        exact absurd h.1.symm (hp a (by simp)).2
      · rw [if_neg hq] at h
        simp only [List.cons_append, List.cons.injEq] at h
        obtain ⟨u, hu⟩ := ih (fun ch hch => hp ch (by simp [hch])) rest t h.2
        exact ⟨u, by rw [hu, h.1]; rfl⟩

theorem replQuot_no_quot (l : List Char) : containsQuot (replQuot l) = false := by
  match l with
  | [] => rfl
  | c :: rest =>
    by_cases hq : (c :: rest).take 6 = quotPat
    · rw [show replQuot (c :: rest) = '"' :: replQuot (rest.drop 5) from by
        rw [replQuot_cons, if_pos hq]]
      rw [containsQuot]
      rw [if_neg ?_]
      · exact replQuot_no_quot (rest.drop 5)
      · intro hcon
        obtain ⟨t, hcc, _⟩ := take_six_quotPat hcon
        exact absurd hcc (by decide)
    · rw [show replQuot (c :: rest) = c :: replQuot rest from by
        rw [replQuot_cons, if_neg hq]]
      rw [containsQuot]
      rw [if_neg ?_]
      · exact replQuot_no_quot rest
      · intro hcon
        obtain ⟨t, hcc, hx⟩ := take_six_quotPat hcon
        obtain ⟨u, hu⟩ := replQuot_prefix_transfer ['q', 'u', 'o', 't', ';']
          (by decide) rest t hx
        apply hq
        rw [hcc, hu]
        rfl
termination_by l.length
decreasing_by
  · simp only [List.length_drop, List.length_cons]; omega
  · simp

theorem containsQuot_iff_occurrence (l : List Char) :
    containsQuot l = true ↔ ∃ pre post, l = pre ++ quotPat ++ post := by
  induction l with
  | nil =>
    constructor
    · intro h; exact absurd h (by simp [containsQuot])
    · rintro ⟨pre, post, h⟩
      have hlen := congrArg List.length h
      simp [quotPat] at hlen
      omega
  | cons c rest ih =>
    rw [containsQuot]
    by_cases hq : (c :: rest).take 6 = quotPat
    · rw [if_pos hq]
      constructor
      · intro _
        refine ⟨[], (c :: rest).drop 6, ?_⟩
        simp only [List.nil_append]
        rw [← hq]
        exact (List.take_append_drop 6 (c :: rest)).symm
      · intro _; rfl
    · rw [if_neg hq, ih]
      constructor
      · rintro ⟨pre, post, h⟩
        exact ⟨c :: pre, post, by rw [h]; simp [List.cons_append]⟩
      · rintro ⟨pre, post, h⟩
        match pre with
        | [] =>
          exfalso
          apply hq
          simp only [List.nil_append] at h
          rw [h]
          rfl
        | a :: pre' =>
          simp only [List.cons_append, List.cons.injEq] at h
          exact ⟨pre', post, h.2⟩

/-- C7: the string produced by the default `processRamlObj` contains no
literal `&quot;` sequence: whatever HTML string the template renderer
emits, after the global replacement of `&quot;` by a double quote the
pattern occurs nowhere in the result (shown both via the occurrence scanner
`containsQuot` and via the explicit decomposition form), and the
replacement really does rewrite the entities into quote characters. -/
theorem processRamlObj_no_quot_entities (html : String) :
    containsQuot (processRamlObjFixQuotes html).data = false ∧
    (¬ ∃ pre post, (processRamlObjFixQuotes html).data = pre ++ quotPat ++ post) ∧
    processRamlObjFixQuotes "a&quot;b&quot;" = "a\"b\"" := by
  have h : containsQuot (replQuot html.data) = false := replQuot_no_quot html.data
  refine ⟨h, ?_, rfl⟩
  intro hex
  have htrue : containsQuot (replQuot html.data) = true :=
    (containsQuot_iff_occurrence _).2 hex
  rw [h] at htrue
  exact Bool.noConfusion htrue

/-- C10: the injected lookup tests the truthiness of each entry's property
at the given name (a falsy value there is skipped and the search continues)
and a hit returns that property's value, not the containing entry; an empty
sequence yields `undefined`, and on a sequence whose first entry stores a
falsy `0` under the key the second entry's value is returned. -/
theorem securitySchemeWithName_truthiness :
    (∀ (scheme : JsValue) (rest : List JsValue) (name : String),
      truthy (getProp scheme name) = false →
      securitySchemeWithName (scheme :: rest) name
        = securitySchemeWithName rest name) ∧
    (∀ (scheme : JsValue) (rest : List JsValue) (name : String),
      truthy (getProp scheme name) = true →
      securitySchemeWithName (scheme :: rest) name = getProp scheme name) ∧
    (∀ name, securitySchemeWithName [] name = .undefined) ∧
    securitySchemeWithName [.obj [("k", JsValue.num 0)], .obj [("k", JsValue.str "v")]] "k"
      = JsValue.str "v" := by
  refine ⟨?_, ?_, fun name => rfl, rfl⟩
  · intro scheme rest name h
    simp [securitySchemeWithName, h]
  · intro scheme rest name h
    simp [securitySchemeWithName, h]

theorem securitySchemeWithName_truthiness_witness :
    securitySchemeWithName [.obj [("k", JsValue.bool false)], .obj [("k", JsValue.bool true)]] "k"
      = securitySchemeWithName [.obj [("k", JsValue.bool true)]] "k" ∧
    securitySchemeWithName [.obj [("k", JsValue.bool true)]] "k"
      = getProp (.obj [("k", JsValue.bool true)]) "k" :=
  ⟨securitySchemeWithName_truthiness.1 (.obj [("k", JsValue.bool false)])
      [.obj [("k", JsValue.bool true)]] "k" rfl,
   securitySchemeWithName_truthiness.2.1 (.obj [("k", JsValue.bool true)]) [] "k" rfl⟩

theorem defaultPostProcessHtml_spec_witness :
    (defaultPostProcessHtml (fun _ => .error (.msg "minify failed")) "<p>x</p>"
      = .error (.newError (.msg "minify failed")) ∧
      ErrVal.newError (.msg "minify failed") ≠ .msg "minify failed") ∧
    defaultPostProcessHtml (fun _ => .ok "<p>x</p>") "<p>x</p>" = .ok "<p>x</p>" :=
  ⟨(defaultPostProcessHtml_spec (fun _ => .error (.msg "minify failed")) "<p>x</p>").1
      (.msg "minify failed") rfl,
   (defaultPostProcessHtml_spec (fun _ => .ok "<p>x</p>") "<p>x</p>").2 "<p>x</p>" rfl⟩
